import Mathlib

/-!
Shallow embedding of `src/github_library_analyzer.py` — the static-analysis
core that locates code blocks referencing a target library in a parsed
Python source file.

The embedding models:
  * the fragment of the Python AST the analyzer inspects (`Exprn`, `Stmt`,
    `PyModule`), with the 1-indexed inclusive line span (`lineno`,
    `end_lineno`) that CPython attaches to every statement and expression;
  * `_AliasCollector` (alias collection over import statements),
  * `_UsageCollector` (usage scanning, enclosing-block determination via
    the parent chain, span-keyed deduplication, snippet extraction), and
  * `_LibraryUsageExtractor.extract_blocks` / the analysis facade.

`ast.parse` and `str.splitlines` are external to the core: a source file is
represented by its parse outcome — `none` for a `SyntaxError`, otherwise
the syntax tree together with the list of source lines.

The Python code walks parent pointers collected in a side dictionary
(`_populate_parent_links`); here the traversal passes the exact ancestor
chain (nearest ancestor first) down the recursion, which is the same chain
the dictionary walk reconstructs node by node.
-/

/-- Source position of an AST node: CPython's `lineno` / `end_lineno`
(1-indexed, inclusive).  On CPython ≥ 3.8 both fields are populated for
every statement, so the defensive `end = start` fallback of `_record`
(line 227-228) is unreachable and not modelled. -/
structure Pos where
  lineno : Nat
  end_lineno : Nat
deriving Repr, DecidableEq

/-- `ast.alias`: one name in an `import` / `from … import` statement,
with its optional `as` rebinding. -/
structure ImportAlias where
  name : String
  asname : Option String
deriving Repr, DecidableEq

/-- `ast.expr_context` on a `Name` node (`Load`, `Store`, `Del`).  The
analyzer never inspects it; it is carried so that independence from it can
be stated. -/
inductive Ctx where
  | load
  | store
  | del
deriving Repr, DecidableEq

/-- The expression fragment the analyzer inspects: bare names, attribute
accesses, calls and opaque constants. -/
inductive Exprn where
  | name (p : Pos) (id : String) (ctx : Ctx)
  | attribute (p : Pos) (value : Exprn) (attr : String)
  | call (p : Pos) (func : Exprn) (args : List Exprn)
  | constant (p : Pos)
deriving Repr

/-- The statement fragment the analyzer inspects.  `functionDef`,
`asyncFunctionDef` and `classDef` are the block-defining statements;
`ifStmt` stands for the compound non-block statements (loops, `with`, …)
that contain nested statements without opening a reportable block. -/
inductive Stmt where
  | functionDef (p : Pos) (id : String) (body : List Stmt)
  | asyncFunctionDef (p : Pos) (id : String) (body : List Stmt)
  | classDef (p : Pos) (id : String) (body : List Stmt)
  | importStmt (p : Pos) (names : List ImportAlias)
  | importFrom (p : Pos) (module : Option String) (names : List ImportAlias)
  | assign (p : Pos) (targets : List Exprn) (value : Exprn)
  | exprStmt (p : Pos) (e : Exprn)
  | returnStmt (p : Pos) (e : Option Exprn)
  | ifStmt (p : Pos) (test : Exprn) (body : List Stmt) (orelse : List Stmt)
deriving Repr

/-- `ast.Module`: the tree root.  It is not an `ast.stmt` and carries no
`lineno`. -/
structure PyModule where
  body : List Stmt
deriving Repr

/-- Span of a statement. -/
def Stmt.pos : Stmt → Pos
  | .functionDef p _ _ => p
  | .asyncFunctionDef p _ _ => p
  | .classDef p _ _ => p
  | .importStmt p _ => p
  | .importFrom p _ _ => p
  | .assign p _ _ => p
  | .exprStmt p _ => p
  | .returnStmt p _ => p
  | .ifStmt p _ _ _ => p

/-! ### String primitives

The analyzer uses `str.split(".")`, `str.startswith`, `"\n".join`,
`textwrap.dedent` and `str.strip`.  They are modelled over `List Char`
so that every operation is a small structural recursion. -/

/-- `s.split(sep)` for a one-character separator: splitting `[]` yields
`[[]]`, matching Python's `"".split(".") == [""]`. -/
def splitOnChar (sep : Char) : List Char → List (List Char)
  | [] => [[]]
  | c :: rest =>
    match splitOnChar sep rest with
    | [] => if c == sep then [[], []] else [[c]]
    | grp :: grps => if c == sep then [] :: grp :: grps else (c :: grp) :: grps

/-- `s.split(".")[0]`: the first dotted segment. -/
def firstSegment (s : String) : String :=
  String.mk ((splitOnChar '.' s.toList).headD [])

/-- `s.split(".")[-1]`: the last dotted segment. -/
def lastSegment (s : String) : String :=
  String.mk ((splitOnChar '.' s.toList).getLastD [])

/-- `s.startswith(pre)`. -/
def strStartsWith (s pre : String) : Bool :=
  pre.toList.isPrefixOf s.toList

/-! ### `_AliasCollector` (lines 162-191) -/

/-- `_AliasCollector._matches_library` (lines 190-191): the candidate
module path matches when it equals the library, extends it past a dot, or
shares the library's root segment.  `base_root` is precomputed in
`__init__` as `library.split(".")[0]`. -/
def matchesLibrary (base baseRoot moduleName : String) : Bool :=
  moduleName == base || strStartsWith moduleName (base ++ ".")
    || firstSegment moduleName == baseRoot

/-- Aliases contributed by one name of a direct `import` statement
(`visit_Import`, lines 170-177): the explicit `as` name if given,
otherwise the first segment of the imported path. -/
def importAliasBindings (base baseRoot : String) (al : ImportAlias) : List String :=
  if matchesLibrary base baseRoot al.name then
    [al.asname.getD (firstSegment al.name)]
  else []

/-- Aliases contributed by one name of a matching `from M import …`
statement (`visit_ImportFrom`, lines 179-188): a wildcard binds the last
segment of `M` and the library's root segment; otherwise the explicit
alias or the imported name itself. -/
def importFromAliasBindings (baseRoot moduleName : String) (al : ImportAlias) : List String :=
  if al.name == "*" then [lastSegment moduleName, baseRoot]
  else [al.asname.getD al.name]

mutual

/-- Aliases collected from one statement.  `ast.NodeVisitor.generic_visit`
recurses into every child, so import statements nested inside function,
class and `if` bodies contribute exactly like top-level ones. -/
def aliasesOfStmt (base baseRoot : String) : Stmt → List String
  | .importStmt _ names =>
    names.flatMap (importAliasBindings base baseRoot)
  | .importFrom _ module names =>
    match module with
    | some m =>
      if matchesLibrary base baseRoot m then
        names.flatMap (importFromAliasBindings baseRoot m)
      else []
    | none => []
  | .functionDef _ _ body => aliasesOfStmts base baseRoot body
  | .asyncFunctionDef _ _ body => aliasesOfStmts base baseRoot body
  | .classDef _ _ body => aliasesOfStmts base baseRoot body
  | .ifStmt _ _ body orelse =>
    aliasesOfStmts base baseRoot body ++ aliasesOfStmts base baseRoot orelse
  | .assign _ _ _ => []
  | .exprStmt _ _ => []
  | .returnStmt _ _ => []

/-- Aliases collected from a statement list, in order. -/
def aliasesOfStmts (base baseRoot : String) : List Stmt → List String
  | [] => []
  | s :: rest => aliasesOfStmt base baseRoot s ++ aliasesOfStmts base baseRoot rest

end

/-- `_AliasCollector` run over the whole module: the set of local names
bound to (a member of) the target library.  The Python collector stores a
`Set[str]`; it is only ever tested for membership and emptiness, so an
order-preserving list with the same members is a faithful model. -/
def collectAliases (library : String) (m : PyModule) : List String :=
  aliasesOfStmts library (firstSegment library) m.body

/-! ### `_UsageCollector` (lines 194-270) -/

/-- A node of the tree, as the parent dictionary sees it: the module root,
a statement, or an expression. -/
inductive Node where
  | mod (m : PyModule)
  | stmt (s : Stmt)
  | expr (e : Exprn)

/-- The `isinstance(current, (ast.FunctionDef, ast.AsyncFunctionDef,
ast.ClassDef))` test of `_enclosing_block` (line 265). -/
def isBlockDefStmt : Stmt → Bool
  | .functionDef _ _ _ => true
  | .asyncFunctionDef _ _ _ => true
  | .classDef _ _ _ => true
  | _ => false

/-- The `isinstance(current, ast.stmt)` test (line 267): `Node.mod` and
`Node.expr` are not statements. -/
def nodeStmt? : Node → Option Stmt
  | .stmt s => some s
  | _ => none

/-- `_UsageCollector._enclosing_block` (lines 261-270) over the ancestor
chain (the node itself first, then its parent, grandparent, …): return the
first function / async-function / class definition encountered; otherwise
keep overwriting `closest_stmt` with every statement passed on the way up
and return its final value (the statement nearest the root), or `none` if
the chain holds no statement at all. -/
def enclosingBlockAux : List Node → Option Stmt → Option Stmt
  | [], closest => closest
  | n :: rest, closest =>
    match nodeStmt? n with
    | some s => if isBlockDefStmt s then some s else enclosingBlockAux rest (some s)
    | none => enclosingBlockAux rest closest

/-- The output unit `_BlockCapture` (lines 124-129). -/
structure BlockCapture where
  start_line : Nat
  end_line : Nat
  symbol : String
  snippet : String
deriving Repr, DecidableEq

/-- The `(start_line, end_line)` deduplication key of a block. -/
def spanKey (b : BlockCapture) : Nat × Nat := (b.start_line, b.end_line)

/-! `textwrap.dedent` and `str.strip`, used by `_record` (line 233). -/

/-- A space or tab, the characters `textwrap.dedent` treats as
indentation. -/
def isSpaceTab (c : Char) : Bool := c == ' ' || c == '\t'

/-- A line matching dedent's `_whitespace_only_re` (`^[ \t]+$`): non-empty
and made of spaces and tabs only. -/
def lineIsWsOnly (l : List Char) : Bool := !l.isEmpty && l.all isSpaceTab

/-- The leading space/tab run of a line (dedent's
`_leading_whitespace_re`). -/
def leadingWs (l : List Char) : List Char := l.takeWhile isSpaceTab

/-- Longest common prefix of two indentation strings: the net effect of
one step of dedent's margin loop. -/
def commonIndent : List Char → List Char → List Char
  | a :: as, b :: bs => if a == b then a :: commonIndent as bs else []
  | _, _ => []

/-- `"\n".join` over lines given as character lists. -/
def joinLines (ls : List (List Char)) : List Char := List.intercalate ['\n'] ls

/-- `textwrap.dedent`: blank whitespace-only lines are emptied, the margin
is the longest common space/tab prefix of the remaining non-empty lines,
and that margin is removed from the start of every line carrying it. -/
def dedentChars (text : List Char) : List Char :=
  let ls := (splitOnChar '\n' text).map (fun l => if lineIsWsOnly l then [] else l)
  let indents := (ls.filter (fun l => !l.isEmpty)).map leadingWs
  let margin := match indents with
    | [] => []
    | m :: ms => ms.foldl commonIndent m
  let stripped := if margin.isEmpty then ls
    else ls.map (fun l => if margin.isPrefixOf l then l.drop margin.length else l)
  joinLines stripped

/-- A character `str.strip()` removes: Python's `str.isspace` set
restricted to the ASCII whitespace that can appear in source text. -/
def isPyWs (c : Char) : Bool :=
  c == ' ' || c == '\t' || c == '\n' || c == '\r' || c == '\x0b' || c == '\x0c'

/-- `str.strip()`. -/
def stripChars (l : List Char) : List Char :=
  ((l.dropWhile isPyWs).reverse.dropWhile isPyWs).reverse

/-- Lines 232-233 of `_record`: slice `lines[start - 1 : end]`, join with
newlines, dedent, strip. -/
def makeSnippet (lines : List String) (start endl : Nat) : String :=
  let snippetLines := (lines.drop (start - 1)).take (endl - (start - 1))
  String.mk (stripChars (dedentChars (joinLines (snippetLines.map String.toList))))

/-- `_UsageCollector._record` (lines 219-239).  `chain` is the candidate
node followed by its ancestors.  The Python `blocks_map` is a
`Dict[(int, int), _BlockCapture]`; an insertion-ordered list of captures
with the key readable off each capture models it exactly: `key in map`
becomes a scan, insertion appends, and `blocks` returns the list. -/
def record (lines : List String) (chain : List Node) (symbol : String)
    (blocksMap : List BlockCapture) : List BlockCapture :=
  match enclosingBlockAux chain none with
  | none => blocksMap
  | some container =>
    let start := container.pos.lineno
    let endl := container.pos.end_lineno
    if blocksMap.any (fun b => spanKey b == (start, endl)) then blocksMap
    else blocksMap ++ [{ start_line := start, end_line := endl,
                         symbol := symbol, snippet := makeSnippet lines start endl }]

/-- `_UsageCollector._part_of_attribute` (lines 241-243): the parent is an
attribute access whose `value` is this node.  An `ast.Attribute` has a
single expression child — its `value` — so a name reached from an
attribute parent is necessarily its `value`. -/
def partOfAttribute (parents : List Node) : Bool :=
  match parents.head? with
  | some (.expr (.attribute _ _ _)) => true
  | _ => false

/-- `_UsageCollector._attribute_root` (lines 245-249): walk down the
`value` chain past every attribute access. -/
def attributeRoot : Exprn → Exprn
  | .attribute _ v _ => attributeRoot v
  | e => e

/-- `_UsageCollector._attribute_full_name` (lines 251-259): the attribute
segments from the innermost outwards, preceded by the base identifier when
the base is a bare name (the Python code appends outermost-first and
reverses). -/
def fullNameParts : Exprn → List String
  | .attribute _ v a => fullNameParts v ++ [a]
  | .name _ id _ => [id]
  | _ => []

/-- `".".join` of the parts. -/
def attributeFullName (e : Exprn) : String :=
  String.intercalate "." (fullNameParts e)

mutual

/-- `ast.NodeVisitor` dispatch on one expression: `visit_Name`
(lines 207-210) and `visit_Attribute` (lines 212-217) record a candidate,
then `generic_visit` recurses into the children in field order.
`parents` is the ancestor chain, nearest first. -/
def visitExpr (aliases : List String) (lines : List String) (parents : List Node)
    (e : Exprn) (acc : List BlockCapture) : List BlockCapture :=
  match e with
  | .name _ id _ =>
    if aliases.contains id && !partOfAttribute parents then
      record lines (Node.expr e :: parents) id acc
    else acc
  | .attribute _ v _ =>
    let acc :=
      match attributeRoot e with
      | .name _ rootId _ =>
        if aliases.contains rootId then
          record lines (Node.expr e :: parents) (attributeFullName e) acc
        else acc
      | _ => acc
    visitExpr aliases lines (Node.expr e :: parents) v acc
  | .call _ f args =>
    visitExprs aliases lines (Node.expr e :: parents) args
      (visitExpr aliases lines (Node.expr e :: parents) f acc)
  | .constant _ => acc

/-- Children of a node visited left to right. -/
def visitExprs (aliases : List String) (lines : List String) (parents : List Node) :
    List Exprn → List BlockCapture → List BlockCapture
  | [], acc => acc
  | e :: rest, acc =>
    visitExprs aliases lines parents rest (visitExpr aliases lines parents e acc)

end

mutual

/-- `generic_visit` over one statement: no statement kind has its own
visitor method, so the visitor only recurses into the children, pushing
the statement onto the ancestor chain. -/
def visitStmt (aliases : List String) (lines : List String) (parents : List Node)
    (s : Stmt) (acc : List BlockCapture) : List BlockCapture :=
  let chain := Node.stmt s :: parents
  match s with
  | .functionDef _ _ body => visitStmts aliases lines chain body acc
  | .asyncFunctionDef _ _ body => visitStmts aliases lines chain body acc
  | .classDef _ _ body => visitStmts aliases lines chain body acc
  | .importStmt _ _ => acc
  | .importFrom _ _ _ => acc
  | .assign _ targets value =>
    visitExpr aliases lines chain value (visitExprs aliases lines chain targets acc)
  | .exprStmt _ e => visitExpr aliases lines chain e acc
  | .returnStmt _ e =>
    match e with
    | some e => visitExpr aliases lines chain e acc
    | none => acc
  | .ifStmt _ test body orelse =>
    visitStmts aliases lines chain orelse
      (visitStmts aliases lines chain body (visitExpr aliases lines chain test acc))

/-- Statements of a body visited in order. -/
def visitStmts (aliases : List String) (lines : List String) (parents : List Node) :
    List Stmt → List BlockCapture → List BlockCapture
  | [], acc => acc
  | s :: rest, acc =>
    visitStmts aliases lines parents rest (visitStmt aliases lines parents s acc)

end

/-- `_UsageCollector` run from the root: `visit(self.tree)` starts at the
module node (which has no parent entry) and `blocks` returns the captures
in insertion order. -/
def collectUsageBlocks (lines : List String) (aliases : List String)
    (m : PyModule) : List BlockCapture :=
  visitStmts aliases lines [Node.mod m] m.body []

/-- A successfully parsed source file: the syntax tree plus
`source.splitlines()`. -/
structure ParsedSource where
  lines : List String
  tree : PyModule

/-- `_LibraryUsageExtractor.extract_blocks` (lines 142-151): collect
aliases, short-circuit to the empty list when none were found, otherwise
scan for usages. -/
def extract_blocks (library : String) (ps : ParsedSource) : List BlockCapture :=
  let aliasNames := collectAliases library ps.tree
  if aliasNames.isEmpty then [] else collectUsageBlocks ps.lines aliasNames ps.tree

/-- The analysis facade for one source file (`analyze_library`,
lines 66-70, together with `_LibraryUsageExtractor.__init__`,
lines 135-140): `ast.parse` is external, so a source text is represented
by its parse outcome — `none` when parsing raises `SyntaxError`, in which
case the file contributes no blocks and the exception is swallowed by the
`except SyntaxError: continue` arm. -/
def analyzeSource (library : String) (parsed : Option ParsedSource) : List BlockCapture :=
  match parsed with
  | none => []
  | some ps => extract_blocks library ps

/-! ### Characterizations of the enclosing-block walk -/

/-- The node as a block-defining statement, if it is one. -/
def blockDefOf? (n : Node) : Option Stmt :=
  match nodeStmt? n with
  | some s => if isBlockDefStmt s then some s else none
  | none => none

/-- First function / async-function / class definition on the ancestor
chain (nearest first). -/
def firstBlockDef (chain : List Node) : Option Stmt :=
  chain.findSome? blockDefOf?

/-- The statement on the chain nearest the tree root. -/
def outermostStmt (chain : List Node) : Option Stmt :=
  chain.reverse.findSome? nodeStmt?

/-- The statement on the chain nearest the reference. -/
def nearestStmt (chain : List Node) : Option Stmt :=
  chain.findSome? nodeStmt?

/-- Modelled from the spec's words: the first block-defining ancestor,
and otherwise the *nearest* (closest to the reference) statement ancestor
as the fallback container. -/
def enclosingBlockNearestSpec (chain : List Node) : Option Stmt :=
  match firstBlockDef chain with
  | some s => some s
  | none => nearestStmt chain

/-- What the code's walk computes: the first block-defining ancestor, and
otherwise the *outermost* statement ancestor (`closest_stmt` is
overwritten at every statement on the way up, so the last one written —
the one nearest the root — is returned). -/
def enclosingBlockChar (chain : List Node) : Option Stmt :=
  match firstBlockDef chain with
  | some s => some s
  | none => outermostStmt chain

/-- The attribute segments of a dotted access, innermost first (the
suffix of the full dotted path after the base). -/
def attrSegs : Exprn → List String
  | .attribute _ v a => attrSegs v ++ [a]
  | _ => []

/-- Two inclusive line spans intersect nowhere. -/
def spanDisjoint (a b : Nat × Nat) : Prop := a.2 < b.1 ∨ b.2 < a.1

instance (a b : Nat × Nat) : Decidable (spanDisjoint a b) := by
  unfold spanDisjoint
  exact inferInstance

/-- The statement is an import form (`ast.Import` / `ast.ImportFrom`). -/
def isImportLike : Stmt → Bool
  | .importStmt _ _ => true
  | .importFrom _ _ _ => true
  | _ => false

mutual

/-- Some import statement inside `s` (at any nesting depth) matches the
target library: a direct import naming a matching module path, or a
`from M import …` whose module matches. -/
def stmtHasMatchingImport (base baseRoot : String) : Stmt → Bool
  | .importStmt _ names => names.any (fun al => matchesLibrary base baseRoot al.name)
  | .importFrom _ module _ =>
    match module with
    | some m => matchesLibrary base baseRoot m
    | none => false
  | .functionDef _ _ body => stmtsHaveMatchingImport base baseRoot body
  | .asyncFunctionDef _ _ body => stmtsHaveMatchingImport base baseRoot body
  | .classDef _ _ body => stmtsHaveMatchingImport base baseRoot body
  | .ifStmt _ _ body orelse =>
    stmtsHaveMatchingImport base baseRoot body || stmtsHaveMatchingImport base baseRoot orelse
  | .assign _ _ _ => false
  | .exprStmt _ _ => false
  | .returnStmt _ _ => false

/-- Some statement of the list contains a matching import. -/
def stmtsHaveMatchingImport (base baseRoot : String) : List Stmt → Bool
  | [] => false
  | s :: rest =>
    stmtHasMatchingImport base baseRoot s || stmtsHaveMatchingImport base baseRoot rest

end

mutual

/-- The identifier `a` is bound by an import statement matching the
target library somewhere inside `s`, at any nesting depth, with the
binding rules of `_AliasCollector`: a direct import binds its `as` name
or the first segment of the imported path; a matching `from M import …`
binds each name's alias (or the name itself), a wildcard binding the last
segment of `M` and the library's root segment. -/
def stmtBindsAlias (base baseRoot a : String) : Stmt → Prop
  | .importStmt _ names =>
    ∃ al ∈ names, matchesLibrary base baseRoot al.name = true ∧
      a = al.asname.getD (firstSegment al.name)
  | .importFrom _ module names =>
    ∃ m, module = some m ∧ matchesLibrary base baseRoot m = true ∧
      ∃ al ∈ names,
        (al.name = "*" ∧ (a = lastSegment m ∨ a = baseRoot)) ∨
        (al.name ≠ "*" ∧ a = al.asname.getD al.name)
  | .functionDef _ _ body => stmtsBindAlias base baseRoot a body
  | .asyncFunctionDef _ _ body => stmtsBindAlias base baseRoot a body
  | .classDef _ _ body => stmtsBindAlias base baseRoot a body
  | .ifStmt _ _ body orelse =>
    stmtsBindAlias base baseRoot a body ∨ stmtsBindAlias base baseRoot a orelse
  | .assign _ _ _ => False
  | .exprStmt _ _ => False
  | .returnStmt _ _ => False

/-- Some statement of the list binds `a`. -/
def stmtsBindAlias (base baseRoot a : String) : List Stmt → Prop
  | [] => False
  | s :: rest => stmtBindsAlias base baseRoot a s ∨ stmtsBindAlias base baseRoot a rest

end

/-! ### Concrete source files used as test vectors

Each `src…` definition is the exact syntax tree CPython's `ast.parse`
produces for the source shown in its comment, with the positions
(`lineno`, `end_lineno`) CPython assigns, restricted to the modelled
fields. -/

/-- | import numpy as np
| def f():
|     return np.array([1, 2]) -/
def srcNumpyFn : ParsedSource :=
  { lines := ["import numpy as np", "def f():", "    return np.array([1, 2])"],
    tree := ⟨[
      .importStmt ⟨1, 1⟩ [⟨"numpy", some "np"⟩],
      .functionDef ⟨2, 3⟩ "f" [
        .returnStmt ⟨3, 3⟩ (some (.call ⟨3, 3⟩
          (.attribute ⟨3, 3⟩ (.name ⟨3, 3⟩ "np" .load) "array")
          [.constant ⟨3, 3⟩]))]]⟩ }

/-- | import numpy as np
| if True:
|     np.array([1])
The reference on line 3 sits inside a top-level `if`: its statement
ancestors are the expression statement (span 3-3, nearest) and the `if`
statement (span 2-3, outermost), and no function or class encloses it. -/
def srcIfTop : ParsedSource :=
  { lines := ["import numpy as np", "if True:", "    np.array([1])"],
    tree := ⟨[
      .importStmt ⟨1, 1⟩ [⟨"numpy", some "np"⟩],
      .ifStmt ⟨2, 3⟩ (.constant ⟨2, 2⟩) [
        .exprStmt ⟨3, 3⟩ (.call ⟨3, 3⟩
          (.attribute ⟨3, 3⟩ (.name ⟨3, 3⟩ "np" .load) "array")
          [.constant ⟨3, 3⟩])] []]⟩ }

/-- The ancestor chain of the `np.array` attribute reference of
`srcIfTop`, exactly as the traversal builds it: the attribute node, the
call around it, the expression statement, the `if` statement, the module
root. -/
def chainIfTop : List Node :=
  [.expr (.attribute ⟨3, 3⟩ (.name ⟨3, 3⟩ "np" .load) "array"),
   .expr (.call ⟨3, 3⟩ (.attribute ⟨3, 3⟩ (.name ⟨3, 3⟩ "np" .load) "array")
     [.constant ⟨3, 3⟩]),
   .stmt (.exprStmt ⟨3, 3⟩ (.call ⟨3, 3⟩
     (.attribute ⟨3, 3⟩ (.name ⟨3, 3⟩ "np" .load) "array") [.constant ⟨3, 3⟩])),
   .stmt (.ifStmt ⟨2, 3⟩ (.constant ⟨2, 2⟩) [
     .exprStmt ⟨3, 3⟩ (.call ⟨3, 3⟩
       (.attribute ⟨3, 3⟩ (.name ⟨3, 3⟩ "np" .load) "array") [.constant ⟨3, 3⟩])] []),
   .mod srcIfTop.tree]

/-- | import numpy as np
| def outer():
|     np.a
|     def inner():
|         np.b -/
def srcNestedDefs : ParsedSource :=
  { lines := ["import numpy as np", "def outer():", "    np.a",
              "    def inner():", "        np.b"],
    tree := ⟨[
      .importStmt ⟨1, 1⟩ [⟨"numpy", some "np"⟩],
      .functionDef ⟨2, 5⟩ "outer" [
        .exprStmt ⟨3, 3⟩ (.attribute ⟨3, 3⟩ (.name ⟨3, 3⟩ "np" .load) "a"),
        .functionDef ⟨4, 5⟩ "inner" [
          .exprStmt ⟨5, 5⟩ (.attribute ⟨5, 5⟩ (.name ⟨5, 5⟩ "np" .load) "b")]]]⟩ }

/-- | def f():
|     import numpy as np
The only import statement is nested inside a function body; the module's
top level contains none. -/
def srcNestedImport : PyModule :=
  ⟨[.functionDef ⟨1, 2⟩ "f" [.importStmt ⟨2, 2⟩ [⟨"numpy", some "np"⟩]]]⟩

/-- | import numpy as np
| np = 5
The second statement rebinds the alias: `np` occurs as a bare assignment
target (store context). -/
def srcStore : ParsedSource :=
  { lines := ["import numpy as np", "np = 5"],
    tree := ⟨[
      .importStmt ⟨1, 1⟩ [⟨"numpy", some "np"⟩],
      .assign ⟨2, 2⟩ [.name ⟨2, 2⟩ "np" .store] (.constant ⟨2, 2⟩)]⟩ }

/-- | import pkg
| def f():
|     pkg.sub.fn() -/
def srcPkgSubFn : ParsedSource :=
  { lines := ["import pkg", "def f():", "    pkg.sub.fn()"],
    tree := ⟨[
      .importStmt ⟨1, 1⟩ [⟨"pkg", none⟩],
      .functionDef ⟨2, 3⟩ "f" [
        .exprStmt ⟨3, 3⟩ (.call ⟨3, 3⟩
          (.attribute ⟨3, 3⟩
            (.attribute ⟨3, 3⟩ (.name ⟨3, 3⟩ "pkg" .load) "sub") "fn") [])]]⟩ }

/-- The dotted reference `pkg.sub.fn` as an expression. -/
def exprPkgSubFn : Exprn :=
  .attribute ⟨3, 3⟩ (.attribute ⟨3, 3⟩ (.name ⟨3, 3⟩ "pkg" .load) "sub") "fn"

/-- | import pandas -/
def srcPandasOnly : ParsedSource :=
  { lines := ["import pandas"],
    tree := ⟨[.importStmt ⟨1, 1⟩ [⟨"pandas", none⟩]]⟩ }

/-! ### Helper lemmas -/

/-- An expression node on the chain is neither a statement nor a block
definition, so the walk skips it. -/
theorem enclosingBlockAux_expr_cons (e : Exprn) (chain : List Node) (closest : Option Stmt) :
    enclosingBlockAux (Node.expr e :: chain) closest = enclosingBlockAux chain closest := rfl

/-- `record` inspects the chain only through the enclosing-block walk, so
an expression node pushed in front of the chain changes nothing. -/
theorem record_expr_cons (lines : List String) (e : Exprn) (chain : List Node)
    (symbol : String) (acc : List BlockCapture) :
    record lines (Node.expr e :: chain) symbol acc = record lines chain symbol acc := by
  unfold record
  rw [enclosingBlockAux_expr_cons]

/-- Closed form of the enclosing-block walk: the first block-defining
ancestor, else the outermost statement ancestor, else the incoming
`closest_stmt` value. -/
theorem enclosingBlockAux_eq (chain : List Node) (closest : Option Stmt) :
    enclosingBlockAux chain closest =
      (firstBlockDef chain).or ((outermostStmt chain).or closest) := by
  induction chain generalizing closest with
  | nil => rfl
  | cons n rest ih =>
    cases n with
    | mod m =>
      rw [enclosingBlockAux]
      simp [nodeStmt?, ih, firstBlockDef, outermostStmt, blockDefOf?,
        List.findSome?_append, List.findSome?_cons]
    | expr e =>
      rw [enclosingBlockAux]
      simp [nodeStmt?, ih, firstBlockDef, outermostStmt, blockDefOf?,
        List.findSome?_append, List.findSome?_cons]
    | stmt s =>
      rw [enclosingBlockAux]
      by_cases hb : isBlockDefStmt s
      · simp [nodeStmt?, hb, firstBlockDef, blockDefOf?, List.findSome?_cons]
      · simp [nodeStmt?, hb, ih, firstBlockDef, outermostStmt, blockDefOf?,
          List.findSome?_append, List.findSome?_cons, Option.or_assoc]

/-- `_record` preserves distinctness of the span keys: it either leaves
the map unchanged or appends a block whose key the `key in self.blocks_map`
guard just found absent. -/
theorem record_spans_nodup (lines : List String) (chain : List Node) (symbol : String)
    (acc : List BlockCapture) (h : (acc.map spanKey).Nodup) :
    ((record lines chain symbol acc).map spanKey).Nodup := by
  unfold record
  cases hc : enclosingBlockAux chain none with
  | none => exact h
  | some c =>
    dsimp only
    by_cases hin : acc.any
        (fun b => spanKey b == (c.pos.lineno, c.pos.end_lineno)) = true
    · simp only [hin, if_true]
      exact h
    · rw [if_neg hin]
      rw [List.map_append]
      rw [List.nodup_append]
      refine ⟨h, List.nodup_singleton _, ?_⟩
      intro k hk hk1
      simp only [List.map_cons, List.map_nil, List.mem_singleton] at hk1
      subst hk1
      rw [List.mem_map] at hk
      obtain ⟨b, hb, hbk⟩ := hk
      rw [Bool.not_eq_true, List.any_eq_false] at hin
      have := hin b hb
      simp only [spanKey] at hbk this
      simp [hbk] at this

mutual

/-- The expression walk of `_UsageCollector` only touches the block map
through `_record`, so span-key distinctness is preserved. -/
theorem visitExpr_spans_nodup : ∀ (aliases lines : List String) (parents : List Node)
    (e : Exprn) (acc : List BlockCapture), (acc.map spanKey).Nodup →
    ((visitExpr aliases lines parents e acc).map spanKey).Nodup
  | aliases, lines, parents, .name p id c, acc, h => by
    rw [visitExpr]
    split
    · exact record_spans_nodup _ _ _ _ h
    · exact h
  | aliases, lines, parents, .attribute p v a, acc, h => by
    rw [visitExpr]
    apply visitExpr_spans_nodup
    split
    · split
      · exact record_spans_nodup _ _ _ _ h
      · exact h
    · exact h
  | aliases, lines, parents, .call p f args, acc, h => by
    rw [visitExpr]
    exact visitExprs_spans_nodup _ _ _ _ _
      (visitExpr_spans_nodup _ _ _ _ _ h)
  | aliases, lines, parents, .constant p, acc, h => by
    rw [visitExpr]
    exact h

/-- List version of `visitExpr_spans_nodup`. -/
theorem visitExprs_spans_nodup : ∀ (aliases lines : List String) (parents : List Node)
    (es : List Exprn) (acc : List BlockCapture), (acc.map spanKey).Nodup →
    ((visitExprs aliases lines parents es acc).map spanKey).Nodup
  | aliases, lines, parents, [], acc, h => by
    rw [visitExprs]
    exact h
  | aliases, lines, parents, e :: rest, acc, h => by
    rw [visitExprs]
    exact visitExprs_spans_nodup _ _ _ _ _
      (visitExpr_spans_nodup _ _ _ _ _ h)

end

mutual

/-- The statement walk of `_UsageCollector` preserves span-key
distinctness of the block map. -/
theorem visitStmt_spans_nodup : ∀ (aliases lines : List String) (parents : List Node)
    (s : Stmt) (acc : List BlockCapture), (acc.map spanKey).Nodup →
    ((visitStmt aliases lines parents s acc).map spanKey).Nodup
  | aliases, lines, parents, .functionDef p i body, acc, h => by
    rw [visitStmt.eq_def]
    dsimp only
    exact visitStmts_spans_nodup _ _ _ _ _ h
  | aliases, lines, parents, .asyncFunctionDef p i body, acc, h => by
    rw [visitStmt.eq_def]
    dsimp only
    exact visitStmts_spans_nodup _ _ _ _ _ h
  | aliases, lines, parents, .classDef p i body, acc, h => by
    rw [visitStmt.eq_def]
    dsimp only
    exact visitStmts_spans_nodup _ _ _ _ _ h
  | aliases, lines, parents, .importStmt p names, acc, h => by
    rw [visitStmt.eq_def]
    dsimp only
    exact h
  | aliases, lines, parents, .importFrom p m names, acc, h => by
    rw [visitStmt.eq_def]
    dsimp only
    exact h
  | aliases, lines, parents, .assign p targets value, acc, h => by
    rw [visitStmt.eq_def]
    dsimp only
    exact visitExpr_spans_nodup _ _ _ _ _
      (visitExprs_spans_nodup _ _ _ _ _ h)
  | aliases, lines, parents, .exprStmt p e, acc, h => by
    rw [visitStmt.eq_def]
    dsimp only
    exact visitExpr_spans_nodup _ _ _ _ _ h
  | aliases, lines, parents, .returnStmt p e, acc, h => by
    rw [visitStmt.eq_def]
    dsimp only
    cases e with
    | some e => exact visitExpr_spans_nodup _ _ _ _ _ h
    | none => exact h
  | aliases, lines, parents, .ifStmt p t body orelse, acc, h => by
    rw [visitStmt.eq_def]
    dsimp only
    exact visitStmts_spans_nodup _ _ _ _ _
      (visitStmts_spans_nodup _ _ _ _ _
        (visitExpr_spans_nodup _ _ _ _ _ h))

/-- List version of `visitStmt_spans_nodup`. -/
theorem visitStmts_spans_nodup : ∀ (aliases lines : List String) (parents : List Node)
    (body : List Stmt) (acc : List BlockCapture), (acc.map spanKey).Nodup →
    ((visitStmts aliases lines parents body acc).map spanKey).Nodup
  | aliases, lines, parents, [], acc, h => by
    rw [visitStmts]
    exact h
  | aliases, lines, parents, s :: rest, acc, h => by
    rw [visitStmts]
    exact visitStmts_spans_nodup _ _ _ _ _
      (visitStmt_spans_nodup _ _ _ _ _ h)

end

/-- Every analysis output has pairwise-distinct span keys: the block map
is keyed by `(start_line, end_line)`. -/
theorem analyzeSource_spans_nodup (library : String) (parsed : Option ParsedSource) :
    ((analyzeSource library parsed).map spanKey).Nodup := by
  cases parsed with
  | none => simp [analyzeSource]
  | some ps =>
    rw [analyzeSource]
    rw [extract_blocks]
    split
    · simp
    · exact visitStmts_spans_nodup _ _ _ _ _ (by simp)

/-- Membership in the bindings of one direct-import name. -/
theorem mem_importAliasBindings (base baseRoot a : String) (al : ImportAlias) :
    a ∈ importAliasBindings base baseRoot al ↔
      matchesLibrary base baseRoot al.name = true ∧
        a = al.asname.getD (firstSegment al.name) := by
  unfold importAliasBindings
  split <;> simp_all

/-- Membership in the bindings of one name of a matching from-import. -/
theorem mem_importFromAliasBindings (baseRoot m a : String) (al : ImportAlias) :
    a ∈ importFromAliasBindings baseRoot m al ↔
      (al.name = "*" ∧ (a = lastSegment m ∨ a = baseRoot)) ∨
        (al.name ≠ "*" ∧ a = al.asname.getD al.name) := by
  unfold importFromAliasBindings
  split <;> simp_all

mutual

/-- Characterization of the collected aliases: `a` is collected from `s`
exactly when some matching import inside `s` binds it. -/
theorem mem_aliasesOfStmt : ∀ (base baseRoot a : String) (s : Stmt),
    a ∈ aliasesOfStmt base baseRoot s ↔ stmtBindsAlias base baseRoot a s
  | base, baseRoot, a, .importStmt p names => by
    rw [aliasesOfStmt, stmtBindsAlias]
    simp only [List.mem_flatMap, mem_importAliasBindings]
  | base, baseRoot, a, .importFrom p none names => by
    rw [aliasesOfStmt, stmtBindsAlias]
    simp
  | base, baseRoot, a, .importFrom p (some m) names => by
    rw [aliasesOfStmt, stmtBindsAlias]
    by_cases hm : matchesLibrary base baseRoot m = true
    · simp only [hm, if_true, List.mem_flatMap, mem_importFromAliasBindings]
      constructor
      · rintro ⟨al, hal, hb⟩
        exact ⟨m, rfl, hm, al, hal, hb⟩
      · rintro ⟨m', hm', _, al, hal, hb⟩
        cases hm'
        exact ⟨al, hal, hb⟩
    · simp only [Bool.not_eq_true] at hm
      simp [hm]
  | base, baseRoot, a, .functionDef p i body => by
    rw [aliasesOfStmt, stmtBindsAlias]
    exact mem_aliasesOfStmts base baseRoot a body
  | base, baseRoot, a, .asyncFunctionDef p i body => by
    rw [aliasesOfStmt, stmtBindsAlias]
    exact mem_aliasesOfStmts base baseRoot a body
  | base, baseRoot, a, .classDef p i body => by
    rw [aliasesOfStmt, stmtBindsAlias]
    exact mem_aliasesOfStmts base baseRoot a body
  | base, baseRoot, a, .ifStmt p t body orelse => by
    rw [aliasesOfStmt, stmtBindsAlias]
    rw [List.mem_append]
    rw [mem_aliasesOfStmts base baseRoot a body, mem_aliasesOfStmts base baseRoot a orelse]
  | base, baseRoot, a, .assign p targets value => by
    rw [aliasesOfStmt, stmtBindsAlias]
    simp
  | base, baseRoot, a, .exprStmt p e => by
    rw [aliasesOfStmt, stmtBindsAlias]
    simp
  | base, baseRoot, a, .returnStmt p e => by
    rw [aliasesOfStmt, stmtBindsAlias]
    simp

/-- List version of `mem_aliasesOfStmt`. -/
theorem mem_aliasesOfStmts : ∀ (base baseRoot a : String) (body : List Stmt),
    a ∈ aliasesOfStmts base baseRoot body ↔ stmtsBindAlias base baseRoot a body
  | base, baseRoot, a, [] => by
    rw [aliasesOfStmts, stmtsBindAlias]
    simp
  | base, baseRoot, a, s :: rest => by
    rw [aliasesOfStmts, stmtsBindAlias]
    rw [List.mem_append]
    rw [mem_aliasesOfStmt base baseRoot a s, mem_aliasesOfStmts base baseRoot a rest]

end

mutual

/-- If no import statement inside `s` matches the library, `s`
contributes no aliases. -/
theorem aliasesOfStmt_eq_nil : ∀ (base baseRoot : String) (s : Stmt),
    stmtHasMatchingImport base baseRoot s = false →
    aliasesOfStmt base baseRoot s = []
  | base, baseRoot, .importStmt p names, h => by
    rw [stmtHasMatchingImport] at h
    rw [aliasesOfStmt]
    rw [List.any_eq_false] at h
    rw [List.flatMap_eq_nil_iff]
    intro al hal
    rw [importAliasBindings, if_neg]
    simp [h al hal]
  | base, baseRoot, .importFrom p none names, h => by
    rw [aliasesOfStmt]
  | base, baseRoot, .importFrom p (some m) names, h => by
    rw [stmtHasMatchingImport] at h
    rw [aliasesOfStmt]
    rw [if_neg]
    simp [h]
  | base, baseRoot, .functionDef p i body, h => by
    rw [stmtHasMatchingImport] at h
    rw [aliasesOfStmt]
    exact aliasesOfStmts_eq_nil base baseRoot body h
  | base, baseRoot, .asyncFunctionDef p i body, h => by
    rw [stmtHasMatchingImport] at h
    rw [aliasesOfStmt]
    exact aliasesOfStmts_eq_nil base baseRoot body h
  | base, baseRoot, .classDef p i body, h => by
    rw [stmtHasMatchingImport] at h
    rw [aliasesOfStmt]
    exact aliasesOfStmts_eq_nil base baseRoot body h
  | base, baseRoot, .ifStmt p t body orelse, h => by
    rw [stmtHasMatchingImport] at h
    rw [Bool.or_eq_false_iff] at h
    rw [aliasesOfStmt]
    rw [aliasesOfStmts_eq_nil base baseRoot body h.1,
      aliasesOfStmts_eq_nil base baseRoot orelse h.2]
    rfl
  | base, baseRoot, .assign p targets value, h => by
    rw [aliasesOfStmt]
  | base, baseRoot, .exprStmt p e, h => by
    rw [aliasesOfStmt]
  | base, baseRoot, .returnStmt p e, h => by
    rw [aliasesOfStmt]

/-- List version of `aliasesOfStmt_eq_nil`. -/
theorem aliasesOfStmts_eq_nil : ∀ (base baseRoot : String) (body : List Stmt),
    stmtsHaveMatchingImport base baseRoot body = false →
    aliasesOfStmts base baseRoot body = []
  | base, baseRoot, [], h => rfl
  | base, baseRoot, s :: rest, h => by
    rw [stmtsHaveMatchingImport] at h
    rw [Bool.or_eq_false_iff] at h
    rw [aliasesOfStmts]
    rw [aliasesOfStmt_eq_nil base baseRoot s h.1,
      aliasesOfStmts_eq_nil base baseRoot rest h.2]
    rfl

end

/-- `_attribute_root` is the identity on non-attribute nodes and walks
through attribute nodes. -/
theorem attributeRoot_name (q : Pos) (i : String) (c : Ctx) :
    attributeRoot (.name q i c) = .name q i c := rfl

/-- `_attribute_root` on a call node. -/
theorem attributeRoot_call (q : Pos) (f : Exprn) (args : List Exprn) :
    attributeRoot (.call q f args) = .call q f args := rfl

/-- `_attribute_root` on a constant node. -/
theorem attributeRoot_constant (q : Pos) :
    attributeRoot (.constant q) = .constant q := rfl

/-- `_attribute_root` steps into the value of an attribute node. -/
theorem attributeRoot_attribute (q : Pos) (v : Exprn) (a : String) :
    attributeRoot (.attribute q v a) = attributeRoot v := rfl

/-- When the innermost base of a dotted access is a bare name,
`_attribute_full_name` yields exactly that name followed by every
attribute segment, outermost last. -/
theorem fullNameParts_of_root_name : ∀ (e : Exprn) (p : Pos) (id : String) (c : Ctx),
    attributeRoot e = .name p id c → fullNameParts e = id :: attrSegs e
  | .name q id' c', p, id, c, h => by
    rw [attributeRoot_name] at h
    cases h
    rfl
  | .attribute q v a, p, id, c, h => by
    rw [attributeRoot_attribute] at h
    rw [fullNameParts, attrSegs]
    rw [fullNameParts_of_root_name v p id c h]
    rfl
  | .call q f args, p, id, c, h => by
    rw [attributeRoot_call] at h
    exact absurd h (by simp)
  | .constant q, p, id, c, h => by
    rw [attributeRoot_constant] at h
    exact absurd h (by simp)

/-! ### Claims -/

/-- C1 (corrected, counterexample): the claim says the fallback container
is the *nearest* statement ancestor, but on the source
| import numpy as np
| if True:
|     np.array([1])
the walk keeps overwriting `closest_stmt` on the way up and returns the
*outermost* statement: the produced block spans lines 2-3 (the whole
top-level `if`), while the nearest statement ancestor of the reference
spans line 3 only. -/
theorem c1_nearest_fallback_counterexample :
    (analyzeSource "numpy" (some srcIfTop)).map spanKey = [(2, 3)] ∧
      (enclosingBlockAux chainIfTop none).map Stmt.pos = some ⟨2, 3⟩ ∧
      (enclosingBlockNearestSpec chainIfTop).map Stmt.pos = some ⟨3, 3⟩ ∧
      (⟨2, 3⟩ : Pos) ≠ ⟨3, 3⟩ := by
  refine ⟨by decide, by decide, by decide, by decide⟩

/-- C1 (corrected, amended): the enclosing block of a candidate is the
first function / async-function / class definition on the ancestor chain;
if none exists before the tree root, the container falls back to the
*outermost* ancestor that is a standalone statement (not the nearest);
if no ancestor is a statement either, the candidate is discarded
silently (`_record` leaves the block map unchanged). -/
theorem c1_enclosing_block_resolution (chain chainNoStmt : List Node)
    (lines : List String) (symbol : String) (acc : List BlockCapture)
    (h : enclosingBlockAux chainNoStmt none = none) :
    enclosingBlockAux chain none = enclosingBlockChar chain ∧
      record lines chainNoStmt symbol acc = acc := by
  constructor
  · rw [enclosingBlockAux_eq]
    unfold enclosingBlockChar
    cases hf : firstBlockDef chain
    · simp [hf]
    · simp [hf]
  · unfold record
    rw [h]

/-- Witness for `c1_enclosing_block_resolution` at the `srcIfTop`
reference chain and the empty chain. -/
theorem c1_enclosing_block_resolution_witness :
    enclosingBlockAux ([] : List Node) none = none ∧
      (enclosingBlockAux chainIfTop none = enclosingBlockChar chainIfTop ∧
        record [] [] "np" [] = []) :=
  ⟨rfl, c1_enclosing_block_resolution chainIfTop [] [] "np" [] rfl⟩

/-- C2 (confirmed): whenever the innermost base of an attribute chain is
a bare identifier, the resolved symbol is the full dotted path — the base
identifier joined with every attribute segment, outermost last — and in
particular `import pkg` followed by `pkg.sub.fn()` inside `f` reports
symbol `"pkg.sub.fn"` for `f`'s block, not `"pkg"`. -/
theorem c2_attribute_symbol_full_path (e : Exprn) (p : Pos) (id : String) (c : Ctx)
    (h : attributeRoot e = .name p id c) :
    attributeFullName e = String.intercalate "." (id :: attrSegs e) ∧
      analyzeSource "pkg" (some srcPkgSubFn) =
        [⟨2, 3, "pkg.sub.fn", "def f():\n    pkg.sub.fn()"⟩] := by
  refine ⟨?_, by decide⟩
  unfold attributeFullName
  rw [fullNameParts_of_root_name e p id c h]

/-- Witness for `c2_attribute_symbol_full_path` at the `pkg.sub.fn`
expression. -/
theorem c2_attribute_symbol_full_path_witness :
    attributeRoot exprPkgSubFn = .name ⟨3, 3⟩ "pkg" .load ∧
      (attributeFullName exprPkgSubFn =
          String.intercalate "." ("pkg" :: attrSegs exprPkgSubFn) ∧
        analyzeSource "pkg" (some srcPkgSubFn) =
          [⟨2, 3, "pkg.sub.fn", "def f():\n    pkg.sub.fn()"⟩]) :=
  ⟨rfl, c2_attribute_symbol_full_path exprPkgSubFn ⟨3, 3⟩ "pkg" .load rfl⟩

/-- C3 (confirmed): a candidate module path `P` matches target library
`L` exactly when `P = L`, or `P` starts with `L` followed by a dot, or
the first dotted segment of `P` equals the first dotted segment of `L`
(the root segment `R`). -/
theorem c3_match_rule (L P : String) :
    matchesLibrary L (firstSegment L) P = true ↔
      P = L ∨ (L ++ ".").toList <+: P.toList ∨ firstSegment P = firstSegment L := by
  simp only [matchesLibrary, strStartsWith, Bool.or_eq_true, beq_iff_eq,
    List.isPrefixOf_iff_prefix]
  exact or_assoc

/-- C4 (confirmed): no two produced blocks share a `(start_line,
end_line)` span, and once a span is present in the block map, `_record`
discards any later candidate for that span entirely — symbol and snippet
are never overwritten. -/
theorem c4_span_dedup_first_wins (library : String) (parsed : Option ParsedSource)
    (lines : List String) (chain : List Node) (symbol : String)
    (acc : List BlockCapture) (c : Stmt)
    (h1 : enclosingBlockAux chain none = some c)
    (h2 : acc.any (fun b => spanKey b == (c.pos.lineno, c.pos.end_lineno)) = true) :
    ((analyzeSource library parsed).map spanKey).Nodup ∧
      record lines chain symbol acc = acc := by
  refine ⟨analyzeSource_spans_nodup _ _, ?_⟩
  unfold record
  rw [h1]
  dsimp only
  rw [if_pos h2]

/-- Witness for `c4_span_dedup_first_wins`: a block map already holding
span `(1, 1)` absorbs a second candidate for the same span. -/
theorem c4_span_dedup_first_wins_witness :
    enclosingBlockAux [Node.stmt (.exprStmt ⟨1, 1⟩ (.constant ⟨1, 1⟩))] none =
        some (.exprStmt ⟨1, 1⟩ (.constant ⟨1, 1⟩)) ∧
      [BlockCapture.mk 1 1 "np" "np"].any (fun b => spanKey b ==
          ((Stmt.exprStmt ⟨1, 1⟩ (.constant ⟨1, 1⟩)).pos.lineno,
            (Stmt.exprStmt ⟨1, 1⟩ (.constant ⟨1, 1⟩)).pos.end_lineno)) = true ∧
      (((analyzeSource "numpy" (some srcNumpyFn)).map spanKey).Nodup ∧
        record [] [Node.stmt (.exprStmt ⟨1, 1⟩ (.constant ⟨1, 1⟩))] "np.x"
            [BlockCapture.mk 1 1 "np" "np"] = [BlockCapture.mk 1 1 "np" "np"]) :=
  ⟨rfl, by decide,
    c4_span_dedup_first_wins "numpy" (some srcNumpyFn) []
      [Node.stmt (.exprStmt ⟨1, 1⟩ (.constant ⟨1, 1⟩))] "np.x"
      [BlockCapture.mk 1 1 "np" "np"] (.exprStmt ⟨1, 1⟩ (.constant ⟨1, 1⟩))
      rfl (by decide)⟩

/-- C5 (confirmed): a source text that fails to parse contributes an
empty result list, and the `SyntaxError` never escapes the facade: the
`except SyntaxError: continue` arm swallows it. -/
theorem c5_parse_failure_yields_empty (library : String) :
    analyzeSource library none = [] := rfl

/-- C6 (confirmed): when no import statement of the module matches the
target library, the alias set is empty and `extract_blocks`
short-circuits to the empty list before any usage scanning. -/
theorem c6_no_matching_import_yields_empty (library : String) (ps : ParsedSource)
    (h : stmtsHaveMatchingImport library (firstSegment library) ps.tree.body = false) :
    analyzeSource library (some ps) = [] := by
  have ha : collectAliases library ps.tree = [] :=
    aliasesOfStmts_eq_nil library (firstSegment library) ps.tree.body h
  simp [analyzeSource, extract_blocks, ha]

/-- Witness for `c6_no_matching_import_yields_empty`: `import pandas`
analyzed for library `numpy`. -/
theorem c6_no_matching_import_yields_empty_witness :
    stmtsHaveMatchingImport "numpy" (firstSegment "numpy") srcPandasOnly.tree.body = false ∧
      analyzeSource "numpy" (some srcPandasOnly) = [] :=
  ⟨by decide, c6_no_matching_import_yields_empty "numpy" srcPandasOnly (by decide)⟩

/-- C7 (corrected, counterexample): output blocks are not always
non-overlapping.  On the source
| import numpy as np
| def outer():
|     np.a
|     def inner():
|         np.b
the analysis produces blocks spanning lines 2-5 (`outer`) and 4-5
(`inner`), and the second span is contained in the first. -/
theorem c7_overlapping_blocks_counterexample :
    (analyzeSource "numpy" (some srcNestedDefs)).map spanKey = [(2, 5), (4, 5)] ∧
      ¬ spanDisjoint (2, 5) (4, 5) := by
  refine ⟨by decide, by decide⟩

/-- C7 (corrected, amended): the guarantee the block map actually gives
is uniqueness, not disjointness — no two blocks of one analysis share the
same `(start_line, end_line)` span, though a block for a nested
definition may be contained in the block of an enclosing one. -/
theorem c7_spans_pairwise_distinct (library : String) (parsed : Option ParsedSource) :
    ((analyzeSource library parsed).map spanKey).Nodup :=
  analyzeSource_spans_nodup library parsed

/-- C8 (corrected, counterexample): alias collection is not restricted to
the module's top level.  In the source
| def f():
|     import numpy as np
the only import statement is nested inside a function body — the module's
top level holds no import at all — yet the alias set is `{"np"}`. -/
theorem c8_nested_import_counterexample :
    (∀ s ∈ srcNestedImport.body, isImportLike s = false) ∧
      collectAliases "numpy" srcNestedImport = ["np"] := by
  refine ⟨by decide, by decide⟩

/-- C8 (corrected, amended): an identifier is in the alias set exactly
when some import statement matching the target library — at the top level
*or nested at any depth inside function, class or compound-statement
bodies* — binds it under the collector's binding rules. -/
theorem c8_alias_binding_characterization (library a : String) (m : PyModule) :
    a ∈ collectAliases library m ↔
      stmtsBindAlias library (firstSegment library) a m.body :=
  mem_aliasesOfStmts library (firstSegment library) a m.body

/-- C9 (confirmed): analysis is deterministic.  The embedding is a pure
function of the `(library, parse outcome)` input — faithfully so, because
the source allocates every piece of state (tree, parent index, alias set,
block map) afresh inside one call and reads nothing else — so two runs on
identical input are definitionally the same value, field for field. -/
theorem c9_analysis_deterministic (library : String) (parsed : Option ParsedSource) :
    analyzeSource library parsed = analyzeSource library parsed := rfl

/-- C10 (confirmed): `visit_Name` never inspects the expression context,
so a bare alias in assignment-target (store) position is treated exactly
like a load reference; in particular `np = 5` after `import numpy as np`
yields a block for the assignment statement with symbol `"np"`. -/
theorem c10_store_position_reference (aliases lines : List String) (parents : List Node)
    (p : Pos) (id : String) (c₁ c₂ : Ctx) (acc : List BlockCapture) :
    visitExpr aliases lines parents (.name p id c₁) acc =
      visitExpr aliases lines parents (.name p id c₂) acc ∧
      analyzeSource "numpy" (some srcStore) = [⟨2, 2, "np", "np = 5"⟩] := by
  refine ⟨?_, by decide⟩
  rw [visitExpr, visitExpr]
  rw [record_expr_cons, record_expr_cons]
